import Mathlib

/-
  Verification development for the findblas library search code
  (src/findblas/__init__.py).  The Python code is shallowly embedded:
  filesystem, symbol tables and console input are abstract inputs
  bundled in a `World`; the search, classification, deduplication and
  name-generation logic is translated function by function from the
  source.
-/

set_option maxHeartbeats 1000000

/- Character-list utilities modelling Python substring / regex-literal tests. -/

def startsWithCL : List Char → List Char → Bool
  | [], _ => true
  | _ :: _, [] => false
  | a :: as, b :: bs => a == b && startsWithCL as bs

def hasInfixCL (pat : List Char) : List Char → Bool
  | [] => pat.isEmpty
  | c :: rest => startsWithCL pat (c :: rest) || hasInfixCL pat rest

/-- Models `re.search(pat, s)` for a pattern that is a literal string. -/
def hasInfixS (pat s : String) : Bool := hasInfixCL pat.data s.data

def endsWithCL (pat l : List Char) : Bool := startsWithCL pat.reverse l.reverse

def endsWithS (pat s : String) : Bool := endsWithCL pat.data s.data

/-- Split at the last occurrence of `pat`: returns `(a, b)` with the scanned
list equal to `a ++ pat ++ b` and `pat` not occurring later than that; models
the greedy leading group of Python regexes such as `^(.*)Library.*$`. -/
def lastSplit (pat : List Char) : List Char → Option (List Char × List Char)
  | [] => if pat.isEmpty then some ([], []) else none
  | c :: rest =>
    match lastSplit pat rest with
    | some (a, b) => some (c :: a, b)
    | none =>
      if startsWithCL pat (c :: rest) then some ([], (c :: rest).drop pat.length)
      else none

/- Path normalization and deduplication (source: `_deduplicate_paths`). -/

/-- Models `re.sub(r"\\", "/", ...)` character-wise. -/
def replBack (c : Char) : Char := if c == '\\' then '/' else c

/-- Models `re.sub(r"/+", "/", ...)`: collapse each run of slashes to one. -/
def collapseSl : List Char → List Char
  | [] => []
  | [c] => [c]
  | c1 :: c2 :: rest =>
    if c1 == '/' && c2 == '/' then collapseSl (c2 :: rest)
    else c1 :: collapseSl (c2 :: rest)

def normPath (s : String) : String := String.mk (collapseSl (s.data.map replBack))

def dedupAux : List String → List String → List String
  | _, [] => []
  | seen, p :: ps =>
    let q := normPath p
    if q ∈ seen then dedupAux seen ps
    else q :: dedupAux (q :: seen) ps

/-- Source: `_deduplicate_paths` — discards duplicated paths, keeps order. -/
def deduplicate_paths (candidate_paths : List String) : List String :=
  dedupAux [] candidate_paths

/-- Index of the first occurrence of a string in a list (length if absent). -/
def firstIdx : List String → String → Nat
  | [], _ => 0
  | a :: l, b => if a == b then 0 else firstIdx l b + 1

/- Platform model and per-vendor file-name generation. -/

inductive Platform
  | win
  | dar
  | linux
deriving DecidableEq

/-- Extensions chosen at the top of `find_blas` from `sys.platform`. -/
def extList : Platform → List String
  | .win => [".lib", ".dll", ".dll.a", ".a"]
  | .dar => [".dylib", ".a"]
  | .linux => [".so", ".a"]

/-- Library-name prefix chosen at the top of `find_blas`. -/
def prefS : Platform → String
  | .win => ""
  | _ => "lib"

def ext0 (plat : Platform) : String := (extList plat).headD ""
def ext1 (plat : Platform) : String := (extList plat).getD 1 ""
def ext2 (plat : Platform) : String := (extList plat).getD 2 ""

/-- Models Python `nm.split(".")`. -/
def splitDotCL : List Char → List (List Char)
  | [] => [[]]
  | c :: rest =>
    if c == '.' then [] :: splitDotCL rest
    else
      match splitDotCL rest with
      | [] => [[c]]
      | p :: ps => (c :: p) :: ps

/-- Source: `process_fnames1` — on POSIX a versioned base name such as
`mkl_rt.2` gets the extension inserted before the version segment. -/
def process_fnames1 (plat : Platform) (lst : List String) (pref ext : String) :
    List String :=
  lst.map fun nm =>
    let tmp := splitDotCL nm.data
    if tmp.length == 2 && !(plat == .win || plat == .dar) then
      pref ++ String.mk (tmp.headD []) ++ ext ++ "." ++ String.mk (tmp.getD 1 [])
    else pref ++ nm ++ ext

/-- Source: `add_windows_fnames1` — windows-only extra `.dll.a` aliases. -/
def add_windows_fnames1 (plat : Platform) (lst : List String) : List String :=
  lst.map fun nm => nm ++ ext2 plat

def mkl_file_names1 (plat : Platform) : List String :=
  process_fnames1 plat ["mkl_rt", "mkl_rt.2", "mkl_rt.1"] (prefS plat) (ext0 plat)

def openblas_file_names1 (plat : Platform) : List String :=
  process_fnames1 plat ["openblas", "openblas64", "openblas64_"] (prefS plat) (ext0 plat)
    ++ (if plat == .win then add_windows_fnames1 plat ["libopenblas", "libopenblas"] else [])

def blis_file_names1 (plat : Platform) : List String :=
  process_fnames1 plat ["blis", "blis-mt"] (prefS plat) (ext0 plat)
    ++ (if plat == .win then add_windows_fnames1 plat ["libblis", "libblis-mt"] else [])

def atlas_file_names1 (plat : Platform) : List String :=
  process_fnames1 plat ["atlas", "tatlas", "satlas"] (prefS plat) (ext0 plat)
    ++ (if plat == .win then add_windows_fnames1 plat ["libatlas", "libatlas"] else [])

def gsl_file_names1 (plat : Platform) : List String :=
  process_fnames1 plat ["gslcblas"] (prefS plat) (ext0 plat)
    ++ (if plat == .win then add_windows_fnames1 plat ["libgslcblas", "libgslcblas"] else [])

def mkl_file_names2 (plat : Platform) : List String :=
  process_fnames1 plat ["mkl_rt", "mkl_rt.2", "mkl_rt.1"] (prefS plat) (ext1 plat)

def openblas_file_names2 (plat : Platform) : List String :=
  process_fnames1 plat ["openblas"] (prefS plat) (ext1 plat)

def blis_file_names2 (plat : Platform) : List String :=
  process_fnames1 plat ["blis", "blis-mt"] (prefS plat) (ext1 plat)

def atlas_file_names2 (plat : Platform) : List String :=
  process_fnames1 plat ["atlas", "tatlas", "satlas"] (prefS plat) (ext1 plat)

def gsl_file_names2 (plat : Platform) : List String :=
  process_fnames1 plat ["gslcblas"] (prefS plat) (ext1 plat)

def incl_mkl_name : List String := ["mkl.h", "mkl_cblas.h", "mkl_blas.h"]
def incl_openblas_name : List String := ["cblas-openblas.h"]
def incl_blis_name : List String := ["blis.h"]
def incl_atlas_name : List String := []
def incl_gsl_name : List String := ["gsl_cblas.h", "gsl_blas.h"]
def incl_generic_name : List String := ["cblas.h", "blas.h"]

/- Symbol classification (source: `_find_symbols`). -/

/-- Abstract view of one candidate binary: whether the structural
pyelftools parse succeeds (library importable, file a readable ELF with a
`.symtab` section), the symbol names in that table, whether the external
`readelf -s` subprocess succeeds, and its whitespace-split output tokens. -/
structure FileInfo where
  elfOk : Bool
  symtab : List String
  readelfOk : Bool
  readelfToks : List String
deriving DecidableEq

/-- Models the regex `ddot_[^a-z]`: an occurrence of `ddot_` followed by a
character that is not a lowercase letter (the regex needs a following char). -/
def hasDdotUnd : List Char → Bool
  | [] => false
  | c :: rest =>
    (match c :: rest with
     | 'd' :: 'd' :: 'o' :: 't' :: '_' :: d :: _ => !('a' ≤ d && d ≤ 'z')
     | _ => false) || hasDdotUnd rest

/-- Source: the `readelf -s` fallback loop of `_find_symbols`, scanning the
split output tokens with the three running booleans. -/
def readelfScan : List String → Bool → Bool → Bool → Bool × Option (List String)
  | [], has_cblas, has_underscores, has_ddot =>
    let flags_found :=
      (if !has_cblas then ["NO_CBLAS"] else [])
        ++ (if has_underscores then ["HAS_UNDERSCORES"] else [])
    if has_ddot then (true, some flags_found) else (true, none)
  | s :: rest, has_cblas, has_underscores, has_ddot =>
    if hasInfixS "openblas" s then (true, some ["HAS_OPENBLAS", "HAS_UNDERSCORES"])
    else if hasInfixS "bli_axpyd" s then (true, some ["HAS_BLIS", "HAS_UNDERSCORES"])
    else if hasInfixS "mkl_dcsrgemv" s then (true, some ["HAS_MKL"])
    else
      readelfScan rest
        (has_cblas || hasInfixS "cblas_ddot" s)
        (has_underscores || hasDdotUnd s.data)
        (has_ddot || hasInfixS "ddot" s)

/-- Source: `_find_symbols` — structural ELF pass with fixed-priority vendor
fingerprints, falling back to the `readelf` scan, and `(false, none)` when
both strategies raise. -/
def find_symbols (fi : FileInfo) : Bool × Option (List String) :=
  if fi.elfOk then
    if "openblas_get_config" ∈ fi.symtab then (true, some ["HAS_OPENBLAS", "HAS_UNDERSCORES"])
    else if "bli_axpyd" ∈ fi.symtab then (true, some ["HAS_BLIS", "HAS_UNDERSCORES"])
    else if "mkl_dcsrgemv" ∈ fi.symtab then (true, some ["HAS_MKL"])
    else if "ddot_" ∈ fi.symtab then
      (true, some (["HAS_UNDERSCORES"] ++ (if "cblas_ddot" ∈ fi.symtab then [] else ["NO_CBLAS"])))
    else if "cblas_ddot" ∈ fi.symtab then (true, some [])
    else if "ddot" ∈ fi.symtab || "DDOT" ∈ fi.symtab then (true, some ["NO_CBLAS"])
    else (true, none)
  else if fi.readelfOk then readelfScan fi.readelfToks false false false
  else (false, none)

/- The world: abstract filesystem, console and optional-package state. -/

/-- All environment-dependent inputs of `find_blas`.  `candidate_paths` is
the collected path list (the path-collection stage queries numpy/scipy
configuration, environment variables and fixed OS locations; its output is
taken as an input here).  `ex` models `os.path.exists` on full paths,
`listdir` models `os.listdir`, `lines` the lines of a text file, `fi` the
binary at a given (directory, file name), `replies` the console input
stream, `npLibsDir` the derived NumPy `.libs` directory when numpy is
importable, and `scipyFile` `scipy.linalg.cython_blas.__file__` when scipy
is importable. -/
structure World where
  plat : Platform
  candidate_paths : List String
  ex : String → Bool
  listdir : String → List String
  lines : String → List String
  fi : String → String → FileInfo
  replies : List String
  npLibsDir : Option String
  scipyFile : Option String
  mkl_include_paths : List String
  openblas_include_paths : List String
  atlas_include_paths : List String
  gsl_include_paths : List String
  system_include_paths : List String

def sepOf : Platform → String
  | .win => "\\"
  | _ => "/"

/-- Models `os.path.join(p, n)` (posix rules; on windows the separator is a
backslash — drive-letter handling is not needed by any probed path). -/
def osJoin (plat : Platform) (p n : String) : String :=
  if startsWithCL (sepOf plat).data n.data then n
  else if p == "" || endsWithCL (sepOf plat).data p.data then p ++ n
  else p ++ sepOf plat ++ n

/- Library location (source: `search_blas_lib` inside `find_blas`). -/

/-- Inner loop of `search_blas_lib`: first path containing the name. -/
def firstHitPaths (w : World) (paths : List String) (name : String) : Option String :=
  match paths with
  | [] => none
  | pt :: rest =>
    if w.ex (osJoin w.plat pt name) then some pt else firstHitPaths w rest name

/-- Outer loop of `search_blas_lib`: names in priority order (name-major). -/
def firstHit (w : World) (search_paths : List String) :
    List String → Option (String × String)
  | [] => none
  | n :: ns =>
    match firstHitPaths w search_paths n with
    | some pt => some (pt, n)
    | none => firstHit w search_paths ns

/-- Source: `search_blas_lib` — when a suffix list is given, each suffix is
string-concatenated (no separator) onto each original path and the extended
list is appended after the original paths. -/
def search_blas_lib (w : World) (search_paths blas_names : List String)
    (suff : Option (List String)) : Option (String × String) :=
  let sp :=
    match suff with
    | none => search_paths
    | some ss => search_paths ++ ss.flatMap fun s => search_paths.map fun pt => pt ++ s
  firstHit w sp blas_names

def openblasSuffixes : List String :=
  ["openblas", "openblas-openmp", "openblas-pthread", "openblas-serial"]

def blisSuffixes : List String :=
  ["blis", "blis-openmp", "blis-pthread", "blis-serial"]

/-- The ten per-vendor passes of `find_blas` in source order: MKL, OpenBLAS,
BLIS, ATLAS, GSL over dynamic names, then the same over static names, each
with its suffix list and the flags appended on success. -/
def vendorStages (plat : Platform) :
    List (List String × Option (List String) × List String) :=
  [ (mkl_file_names1 plat, none, ["HAS_MKL"]),
    (openblas_file_names1 plat, some openblasSuffixes, ["HAS_OPENBLAS", "HAS_UNDERSCORES"]),
    (blis_file_names1 plat, some blisSuffixes, ["HAS_BLIS", "HAS_UNDERSCORES"]),
    (atlas_file_names1 plat, none, ["HAS_ATLAS", "HAS_UNDERSCORES"]),
    (gsl_file_names1 plat, none, ["HAS_GSL"]),
    (mkl_file_names2 plat, none, ["HAS_MKL"]),
    (openblas_file_names2 plat, some openblasSuffixes, ["HAS_OPENBLAS", "HAS_UNDERSCORES"]),
    (blis_file_names2 plat, some blisSuffixes, ["HAS_BLIS", "HAS_UNDERSCORES"]),
    (atlas_file_names2 plat, none, ["HAS_ATLAS", "HAS_UNDERSCORES"]),
    (gsl_file_names2 plat, none, ["HAS_GSL"]) ]

def searchStages (w : World) (sp : List String) :
    List (List String × Option (List String) × List String) →
      Option (String × String × List String)
  | [] => none
  | (names, suff, fl) :: rest =>
    match search_blas_lib w sp names suff with
    | some (p, f) => some (p, f, fl)
    | none => searchStages w sp rest

def vendorSearch (w : World) (sp : List String) : Option (String × String × List String) :=
  searchStages w sp (vendorStages w.plat)

/-- Flags taken from `_find_symbols` in the generic pass (`if platform[:3]
!= "win"` and the returned flag list is not `None`). -/
def genericFlags (w : World) (p f : String) : List String :=
  if w.plat != Platform.win then
    match (find_symbols (w.fi p f)).2 with
    | some fl => fl
    | none => []
  else []

/-- Source: the generic pass of `find_blas` — `libcblas` names first, then
`libblas`/`libBLAS` names, inspecting symbols on non-windows. -/
def genericSearch (w : World) (sp : List String) : Option (String × String × List String) :=
  match search_blas_lib w sp ((extList w.plat).map fun e => prefS w.plat ++ "cblas" ++ e) none with
  | some (p, f) => some (p, f, genericFlags w p f)
  | none =>
    match search_blas_lib w sp
        ((extList w.plat).map (fun e => prefS w.plat ++ "blas" ++ e)
          ++ (extList w.plat).map fun e => prefS w.plat ++ "BLAS" ++ e) none with
    | some (p, f) => some (p, f, genericFlags w p f)
    | none => none

/- Interactive confirmation (source: `check_is_blas`). -/

inductive FErr
  | notFound (msg : String)
  | emptyReply
  | eofInput
deriving DecidableEq

/-- Models Python `str.lower()` on the ASCII range. -/
def lowerChar (c : Char) : Char :=
  if 'A' ≤ c && c ≤ 'Z' then Char.ofNat (c.toNat + 32) else c

def lowerS (s : String) : String := String.mk (s.data.map lowerChar)

/-- Source: the `while True` prompt loop of `check_is_blas`.  Only the first
character of the lowercased reply is inspected; an empty reply makes the
unguarded `[0]` indexing raise (modelled as `emptyReply`), and an exhausted
input stream raises at `input()` (modelled as `eofInput`). -/
def promptLoop : List String → Except FErr (Bool × List String)
  | [] => .error .eofInput
  | r :: rs =>
    match (lowerS r).data with
    | [] => .error .emptyReply
    | c :: _ =>
      if c == 'y' then .ok (true, rs)
      else if c == 'n' then .ok (false, rs)
      else promptLoop rs

/-- The ELF-inspection step of `check_is_blas` (non-windows only),
producing (ask_user, is_blas, flags_found). -/
def inspectStep (w : World) (pt fname : String) : Bool × Bool × List String :=
  if w.plat != Platform.win then
    let found_syms := find_symbols (w.fi pt fname)
    if found_syms.1 then
      match found_syms.2 with
      | some fl => (false, true, fl)
      | none => (false, false, [])
    else (true, false, [])
  else (true, false, [])

/-- Source: `check_is_blas` — ELF inspection on non-windows; a prompt when
the file could not be inspected and `allow_unidentified_blas` is set.
Returns (is_blas, flags_found, remaining console replies). -/
def check_is_blas (w : World) (pt fname : String) (allow_unidentified_blas : Bool)
    (replies : List String) : Except FErr (Bool × List String × List String) :=
  let inspected := inspectStep w pt fname
  if inspected.1 && allow_unidentified_blas then
    match promptLoop replies with
    | .error e => .error e
    | .ok (true, rs) => .ok (true, inspected.2.2 ++ ["UNKNWON_BLAS"], rs)
    | .ok (false, rs) => .ok (false, inspected.2.2, rs)
  else .ok (inspected.2.1, inspected.2.2, replies)

/-- Source: the regex-matching stage of `find_blas` — for each existing
search path, files whose name contains "blas", dynamic extension first,
then static extension. -/
def regexCandidates (w : World) (sp : List String) : List (String × String) :=
  let dyna := sp.flatMap fun pt =>
    if w.ex pt then
      ((w.listdir pt).filter fun f =>
          hasInfixS "blas" f && endsWithS (ext0 w.plat) f).map fun f => (pt, f)
    else []
  let stat := sp.flatMap fun pt =>
    if w.ex pt then
      ((w.listdir pt).filter fun f =>
          hasInfixS "blas" f && endsWithS (ext1 w.plat) f).map fun f => (pt, f)
    else []
  dyna ++ stat

/-- Source: the loop over regex-matched candidate files, calling
`check_is_blas` on each until one is accepted. -/
def tryCandidates (w : World) (allow : Bool) :
    List (String × String) → List String →
      Except FErr (Option (String × String × List String) × List String)
  | [], rs => .ok (none, rs)
  | (pt, f) :: rest, rs =>
    match check_is_blas w pt f allow rs with
    | .error e => .error e
    | .ok (true, fl, rs2) => .ok (some (pt, f, fl), rs2)
    | .ok (false, _, rs2) => tryCandidates w allow rest rs2

/- Last-resort fallbacks (source: the NumPy `.libs` and SciPy
`cython_blas` blocks of `find_blas`; `none` models a raised-and-caught
exception anywhere in the corresponding `try` block). -/

def npTry (w : World) : Option (String × String × List String) :=
  match w.npLibsDir with
  | none => none
  | some d =>
    if w.ex d then
      match (w.listdir d).filter (fun f => hasInfixS "blas" f) with
      | [] => none
      | f :: _ =>
        if w.plat != Platform.win then
          let found_syms := find_symbols (w.fi d f)
          if found_syms.1 then
            match found_syms.2 with
            | none => none
            | some fl => some (d, f, fl)
          else some (d, f, [])
        else some (d, f, [])
    else none

/-- The non-windows symbol inspection shared by the SciPy fallback branch:
`None` models the `ValueError` raised (and caught) when the file was
readable but contained no BLAS symbols. -/
def spTryInspect (w : World) (blas_path blas_file : String) :
    Option (String × String × List String) :=
  if w.plat != Platform.win then
    let found_syms := find_symbols (w.fi blas_path blas_file)
    if found_syms.1 then
      match found_syms.2 with
      | none => none
      | some fl => some (blas_path, blas_file, fl)
    else some (blas_path, blas_file, [])
  else some (blas_path, blas_file, [])

def spTry (w : World) : Option (String × String × List String) :=
  match w.scipyFile with
  | none => none
  | some path0 =>
    match lastSplit ['/'] (path0.data.map replBack) with
    | some (a, b) => spTryInspect w (String.mk a) (String.mk b)
    | none =>
      spTryInspect w (String.mk (path0.data.map replBack))
        (String.mk (path0.data.map replBack))

def err_msg : String :=
  "Could not locate MKL, OpenBLAS, BLIS, ATLAS or GSL libraries - you\x27ll need to manually modify setup.py to add BLAS path."

/- Header lookup (source: `get_inc_paths` and `search_incl_kwds`). -/

/-- Models `re.sub("/lib.?$", "/include", s)`. -/
def subLibEnd (s : String) : String :=
  if endsWithCL "/lib".data s.data then
    String.mk (s.data.take (s.data.length - 4)) ++ "/include"
  else if endsWithCL "/lib".data (s.data.take (s.data.length - 1)) && s.data.length ≥ 5 then
    String.mk (s.data.take (s.data.length - 5)) ++ "/include"
  else s

/-- Models `re.sub(r"^(.*)/lib/(.*)$", r"\1/include/\2", s)` (greedy: the
last occurrence of `/lib/` is rewritten). -/
def subLibMid (s : String) : String :=
  match lastSplit "/lib/".data s.data with
  | some (a, b) => String.mk a ++ "/include/" ++ String.mk b
  | none => s

/-- Models `re.sub(r"^(.*)Library.*$", r"\1include", s)`. -/
def subLibraryEnd (s : String) : String :=
  match lastSplit "Library".data s.data with
  | some (a, _) => String.mk a ++ "include"
  | none => s

/-- Source: `get_inc_paths` — vendor include paths, then the library path
and its lib→include transformations, then system include paths, deduplicated. -/
def get_inc_paths (w : World) (blas_path : String) (include_paths : List String) :
    List String :=
  deduplicate_paths
    (include_paths
      ++ [blas_path, subLibEnd blas_path, subLibMid blas_path, subLibraryEnd blas_path]
      ++ w.system_include_paths)

/-- Source: `search_incl_kwds` — first header (name-major) that exists and
has a line matching one of the keywords. -/
def search_incl_kwds (w : World) (search_paths : List String) :
    List String → List String → Option (String × String)
  | [], _ => none
  | incl_name :: rest, keywords =>
    match search_paths.find? (fun pt =>
        w.ex (osJoin w.plat pt incl_name)
          && (w.lines (osJoin w.plat pt incl_name)).any fun line =>
              keywords.any fun kw => hasInfixS kw line) with
    | some pt => some (pt, incl_name)
    | none => search_incl_kwds w search_paths rest keywords

structure FindOk where
  blas_path : String
  blas_file : String
  incl_path : Option String
  incl_file : Option String
  flags : List String
deriving DecidableEq

def mkFindOk (p f : String) (incl : Option (String × String)) (fl : List String) : FindOk :=
  ⟨p, f, incl.map Prod.fst, incl.map Prod.snd, fl⟩

/-- Source: the include-path lookup at the end of `find_blas`, branching on
the vendor identity flag.  Note the BLIS branch reuses the OpenBLAS include
paths and header names, as the source does; when no vendor flag was
determined, `UNKNWON_BLAS` is appended and generic headers are scanned. -/
def finalize (w : World) (blas_path blas_file : String) (flags_found : List String) :
    FindOk :=
  if "HAS_MKL" ∈ flags_found then
    mkFindOk blas_path blas_file
      (search_incl_kwds w (get_inc_paths w blas_path w.mkl_include_paths)
        (incl_mkl_name ++ incl_generic_name) ["MKL"]) flags_found
  else if "HAS_OPENBLAS" ∈ flags_found then
    mkFindOk blas_path blas_file
      (search_incl_kwds w (get_inc_paths w blas_path w.openblas_include_paths)
        (incl_openblas_name ++ incl_generic_name) ["openblas"]) flags_found
  else if "HAS_BLIS" ∈ flags_found then
    mkFindOk blas_path blas_file
      (search_incl_kwds w (get_inc_paths w blas_path w.openblas_include_paths)
        (incl_openblas_name ++ incl_generic_name) ["blis", "amd-blis"]) flags_found
  else if "HAS_ATLAS" ∈ flags_found then
    mkFindOk blas_path blas_file
      (search_incl_kwds w (get_inc_paths w blas_path w.atlas_include_paths)
        (incl_atlas_name ++ incl_generic_name) ["atlas", "ATLAS"]) flags_found
  else if "HAS_GSL" ∈ flags_found then
    mkFindOk blas_path blas_file
      (search_incl_kwds w (get_inc_paths w blas_path w.gsl_include_paths)
        (incl_gsl_name ++ incl_generic_name) ["GSL_CBLAS"]) flags_found
  else
    let flags2 := flags_found ++ ["UNKNWON_BLAS"]
    let all_kwds :=
      ["MKL", "openblas", "blis", "atlas", "ATLAS"]
        ++ (if "NO_CBLAS" ∈ flags2 then [] else ["GSL_CBLAS", "cblas", "CBLAS"])
        ++ ["ddot", "DDOT"]
    mkFindOk blas_path blas_file
      (search_incl_kwds w (get_inc_paths w blas_path []) incl_generic_name all_kwds)
      flags2

/-- Source: `find_blas` — deduplicated candidate paths, the ten vendor
passes, the generic-name pass with symbol classification, the
regex-matching pass with optional interactive confirmation, the NumPy and
SciPy last resorts, and a `ValueError` with `err_msg` when everything is
exhausted.  The second argument mirrors `allow_pep518_paths`, whose only
effect is on path collection and therefore on `w.candidate_paths`. -/
def find_blas_core (w : World) (allow_unidentified_blas : Bool) (sp : List String) :
    Except FErr FindOk :=
  match vendorSearch w sp with
  | some (p, f, fl) => .ok (finalize w p f fl)
  | none =>
    match genericSearch w sp with
    | some (p, f, fl) => .ok (finalize w p f fl)
    | none =>
      match tryCandidates w allow_unidentified_blas (regexCandidates w sp) w.replies with
      | .error e => .error e
      | .ok (some (p, f, fl), _) => .ok (finalize w p f fl)
      | .ok (none, _) =>
        match npTry w with
        | some (p, f, fl) => .ok (finalize w p f fl)
        | none =>
          match spTry w with
          | some (p, f, fl) => .ok (finalize w p f fl)
          | none => .error (.notFound err_msg)

def find_blas (w : World) (allow_unidentified_blas _allow_pep518_paths : Bool) :
    Except FErr FindOk :=
  find_blas_core w allow_unidentified_blas (deduplicate_paths w.candidate_paths)

/- Small structural lemmas. -/

theorem mk_data (s : String) : String.mk s.data = s := rfl

theorem splitDotCL_no_dot (l : List Char) (h : '.' ∉ l) : splitDotCL l = [l] := by
  induction l with
  | nil => rfl
  | cons c rest ih =>
    have hc : c ≠ '.' := fun e => h (e ▸ List.mem_cons_self c rest)
    have hr : '.' ∉ rest := fun hm => h (List.mem_cons_of_mem _ hm)
    have hb : (c == '.') = false := by simp [hc]
    simp [splitDotCL, hb, ih hr]

theorem splitDotCL_append (b v : List Char) (hb : '.' ∉ b) :
    splitDotCL (b ++ '.' :: v) = b :: splitDotCL v := by
  induction b with
  | nil => simp [splitDotCL]
  | cons c bs ih =>
    have hc : c ≠ '.' := fun e => hb (e ▸ List.mem_cons_self c bs)
    have hbs : '.' ∉ bs := fun hm => hb (List.mem_cons_of_mem _ hm)
    have hbeq : (c == '.') = false := by simp [hc]
    simp only [List.cons_append, splitDotCL, hbeq, Bool.false_eq_true, if_false]
    rw [show bs.append ('.' :: v) = bs ++ '.' :: v from rfl, ih hbs]

/- Claim C2: result of the classifier when both strategies fail. -/

/-- C2 (amended): when the structural ELF parse raises and the external
symbol-dump subprocess also fails, `_find_symbols` returns found=False
together with flags=None (not found=True as the claim states). -/
theorem c2_both_strategies_fail (fi : FileInfo)
    (h1 : fi.elfOk = false) (h2 : fi.readelfOk = false) :
    find_symbols fi = (false, none) := by
  simp [find_symbols, h1, h2]

def fiC2 : FileInfo := ⟨false, ["cblas_ddot"], false, ["header"]⟩

/-- C2 counterexample: at a concrete uninspectable file the classifier
returns (false, none), not (true, none) as claimed. -/
theorem c2_counterexample :
    find_symbols fiC2 = (false, none) ∧ find_symbols fiC2 ≠ (true, none) := by
  exact ⟨rfl, by decide⟩

def fiC2w : FileInfo := ⟨false, [], false, []⟩

/-- C2 witness: the amended theorem applied at a concrete file. -/
theorem c2_witness : find_symbols fiC2w = (false, none) :=
  c2_both_strategies_fail fiC2w rfl rfl

/- Claim C4: vendor fingerprint tests short-circuit before generic tests. -/

/-- C4: a symbol table containing the OpenBLAS fingerprint
`openblas_get_config` together with any generic ddot-family symbol is
classified with the OpenBLAS identity flags, not the generic flags. -/
theorem c4_openblas_short_circuit (fi : FileInfo) (hElf : fi.elfOk = true)
    (hO : "openblas_get_config" ∈ fi.symtab)
    (_hD : "ddot_" ∈ fi.symtab ∨ "cblas_ddot" ∈ fi.symtab
        ∨ "ddot" ∈ fi.symtab ∨ "DDOT" ∈ fi.symtab) :
    find_symbols fi = (true, some ["HAS_OPENBLAS", "HAS_UNDERSCORES"]) := by
  simp [find_symbols, hElf, hO]

def fiC4 : FileInfo := ⟨true, ["openblas_get_config", "cblas_ddot", "ddot_"], false, []⟩

/-- C4 witness: the short-circuit at a concrete symbol table. -/
theorem c4_witness :
    find_symbols fiC4 = (true, some ["HAS_OPENBLAS", "HAS_UNDERSCORES"]) :=
  c4_openblas_short_circuit fiC4 rfl (by decide) (Or.inr (Or.inl (by decide)))

/- Claim C8: extension placement around an embedded version suffix. -/

/-- C8: a base name of the form base.version gets the extension inserted
before the version segment on POSIX (linux) and appended after it on
windows and darwin; a dot-free base name always yields prefix+name+ext. -/
theorem c8_process_fnames1_version (b v nm nm2 pref ext : String) (plat : Platform)
    (hb : '.' ∉ b.data) (hv : '.' ∉ v.data) (hnm : nm = b ++ "." ++ v)
    (hnm2 : '.' ∉ nm2.data) :
    process_fnames1 .linux [nm] pref ext = [pref ++ b ++ ext ++ "." ++ v]
    ∧ process_fnames1 .win [nm] pref ext = [pref ++ nm ++ ext]
    ∧ process_fnames1 .dar [nm] pref ext = [pref ++ nm ++ ext]
    ∧ process_fnames1 plat [nm2] pref ext = [pref ++ nm2 ++ ext] := by
  have hd : nm.data = b.data ++ '.' :: v.data := by
    rw [hnm]
    show (b ++ "." ++ v).data = _
    rw [String.data_append, String.data_append]
    have hdot : ".".data = ['.'] := rfl
    rw [hdot, List.append_assoc, List.singleton_append]
  have hsplit : splitDotCL nm.data = [b.data, v.data] := by
    rw [hd, splitDotCL_append b.data v.data hb, splitDotCL_no_dot v.data hv]
  refine ⟨?_, ?_, ?_, ?_⟩
  · simp [process_fnames1, hsplit, mk_data]
  · simp [process_fnames1]
  · simp [process_fnames1]
  · have h2 : splitDotCL nm2.data = [nm2.data] := splitDotCL_no_dot nm2.data hnm2
    simp [process_fnames1, h2]

/-- C8 witness: the theorem instantiated at `mkl_rt.2`. -/
theorem c8_witness :
    process_fnames1 .linux ["mkl_rt.2"] "lib" ".so" = ["libmkl_rt.so.2"]
    ∧ process_fnames1 .win ["mkl_rt.2"] "" ".dll" = ["mkl_rt.2.dll"] :=
  ⟨(c8_process_fnames1_version "mkl_rt" "2" "mkl_rt.2" "x" "lib" ".so" .linux
      (by decide) (by decide) rfl (by decide)).1,
    (c8_process_fnames1_version "mkl_rt" "2" "mkl_rt.2" "x" "" ".dll" .win
      (by decide) (by decide) rfl (by decide)).2.1⟩

/- Claim C10: the interactive confirmation prompt. -/

theorem check_is_blas_prompt_eq (w : World) (pt fname : String) (replies : List String)
    (hAsk : w.plat = Platform.win ∨ (find_symbols (w.fi pt fname)).1 = false) :
    check_is_blas w pt fname true replies =
      match promptLoop replies with
      | .error e => .error e
      | .ok (true, rs) => .ok (true, ["UNKNWON_BLAS"], rs)
      | .ok (false, rs) => .ok (false, [], rs) := by
  unfold check_is_blas inspectStep
  rcases hAsk with hw | hf
  · simp [hw]
  · by_cases hw : w.plat = Platform.win
    · simp [hw]
    · have hb : (w.plat != Platform.win) = true := by simp [hw]
      simp [hb, hf]

/-- C10: when the prompt is reached only the first character of the
lowercased reply matters: a reply starting with y accepts the file with the
UNKNWON_BLAS flag, one starting with n rejects it, any other non-empty
reply re-prompts on the remaining input, and an empty reply raises (the
unguarded indexing), escaping the loop. -/
theorem c10_prompt_first_char (w : World) (pt fname r : String) (rs : List String)
    (hAsk : w.plat = Platform.win ∨ (find_symbols (w.fi pt fname)).1 = false) :
    ((lowerS r).data.head? = some 'y' →
        check_is_blas w pt fname true (r :: rs) = .ok (true, ["UNKNWON_BLAS"], rs))
    ∧ ((lowerS r).data.head? = some 'n' →
        check_is_blas w pt fname true (r :: rs) = .ok (false, [], rs))
    ∧ (∀ c, (lowerS r).data.head? = some c → c ≠ 'y' → c ≠ 'n' →
        check_is_blas w pt fname true (r :: rs) = check_is_blas w pt fname true rs)
    ∧ ((lowerS r).data.head? = none →
        check_is_blas w pt fname true (r :: rs) = .error FErr.emptyReply) := by
  rw [check_is_blas_prompt_eq w pt fname (r :: rs) hAsk,
    check_is_blas_prompt_eq w pt fname rs hAsk]
  refine ⟨?_, ?_, ?_, ?_⟩
  · intro h
    cases hl : (lowerS r).data with
    | nil => rw [hl] at h; cases h
    | cons a t =>
      rw [hl] at h
      have ha : a = 'y' := by simpa using h
      subst ha
      simp [promptLoop, hl]
  · intro h
    cases hl : (lowerS r).data with
    | nil => rw [hl] at h; cases h
    | cons a t =>
      rw [hl] at h
      have ha : a = 'n' := by simpa using h
      subst ha
      simp [promptLoop, hl]
  · intro c h hy hn
    cases hl : (lowerS r).data with
    | nil => rw [hl] at h; cases h
    | cons a t =>
      rw [hl] at h
      have ha : a = c := by simpa using h
      subst ha
      have hstep : promptLoop (r :: rs) = promptLoop rs := by
        simp [promptLoop, hl, hy, hn]
      rw [hstep]
  · intro h
    cases hl : (lowerS r).data with
    | nil => simp [promptLoop, hl]
    | cons a t => rw [hl] at h; cases h

def trivWorld (plat : Platform) : World :=
  ⟨plat, [], fun _ => false, fun _ => [], fun _ => [],
    fun _ _ => ⟨false, [], false, []⟩, [], none, none, [], [], [], [], []⟩

def wC10 : World := trivWorld .win

/-- C10 witness: concrete replies exercising the accept and empty cases. -/
theorem c10_witness :
    check_is_blas wC10 "/d" "libblas.lib" true ["Yes"] = .ok (true, ["UNKNWON_BLAS"], [])
    ∧ check_is_blas wC10 "/d" "libblas.lib" true [""] = .error FErr.emptyReply :=
  ⟨(c10_prompt_first_char wC10 "/d" "libblas.lib" "Yes" [] (Or.inl rfl)).1 rfl,
    (c10_prompt_first_char wC10 "/d" "libblas.lib" "" [] (Or.inl rfl)).2.2.2 rfl⟩

/- Claim C5: deduplication is idempotent, duplicate-aware and order-preserving. -/

theorem collapseSl_cons_cons (c1 c2 : Char) (r : List Char) :
    collapseSl (c1 :: c2 :: r) =
      if c1 == '/' && c2 == '/' then collapseSl (c2 :: r)
      else c1 :: collapseSl (c2 :: r) := rfl

theorem collapseSl_head (c : Char) (r : List Char) :
    ∃ t, collapseSl (c :: r) = c :: t := by
  induction r generalizing c with
  | nil => exact ⟨[], rfl⟩
  | cons c2 rest ih =>
    rw [collapseSl_cons_cons]
    by_cases h : (c == '/' && c2 == '/') = true
    · rw [if_pos h]
      obtain ⟨t, ht⟩ := ih c2
      have hc : c = c2 := by
        have h1 := (Bool.and_eq_true _ _).mp h
        have e1 : c = '/' := by simpa using h1.1
        have e2 : c2 = '/' := by simpa using h1.2
        rw [e1, e2]
      exact ⟨t, by rw [ht, hc]⟩
    · rw [if_neg h]
      exact ⟨collapseSl (c2 :: rest), rfl⟩

def noDS : List Char → Bool
  | [] => true
  | [_] => true
  | c1 :: c2 :: rest => !(c1 == '/' && c2 == '/') && noDS (c2 :: rest)

theorem noDS_collapseSl (l : List Char) : noDS (collapseSl l) = true := by
  induction l with
  | nil => rfl
  | cons c rest ih =>
    cases rest with
    | nil => rfl
    | cons c2 r2 =>
      rw [collapseSl_cons_cons]
      by_cases h : (c == '/' && c2 == '/') = true
      · rw [if_pos h]; exact ih
      · rw [if_neg h]
        obtain ⟨t, ht⟩ := collapseSl_head c2 r2
        rw [ht]
        have ihl : noDS (c2 :: t) = true := ht ▸ ih
        show (!(c == '/' && c2 == '/') && noDS (c2 :: t)) = true
        rw [ihl, Bool.eq_false_iff.mpr h]
        rfl

theorem collapseSl_of_noDS (l : List Char) (h : noDS l = true) : collapseSl l = l := by
  induction l with
  | nil => rfl
  | cons c rest ih =>
    cases rest with
    | nil => rfl
    | cons c2 r2 =>
      have h1 : (!(c == '/' && c2 == '/') && noDS (c2 :: r2)) = true := h
      have h2 := (Bool.and_eq_true _ _).mp h1
      have hne : (c == '/' && c2 == '/') = false := by
        cases hcc : (c == '/' && c2 == '/') with
        | false => rfl
        | true => rw [hcc] at h2; cases h2.1
      rw [collapseSl_cons_cons, hne]
      simp only [Bool.false_eq_true, if_false]
      rw [ih h2.2]

theorem collapseSl_idem (l : List Char) : collapseSl (collapseSl l) = collapseSl l :=
  collapseSl_of_noDS _ (noDS_collapseSl l)

theorem mem_collapseSl (a : Char) (l : List Char) (h : a ∈ collapseSl l) : a ∈ l := by
  induction l with
  | nil => cases h
  | cons c rest ih =>
    cases rest with
    | nil => exact h
    | cons c2 r2 =>
      rw [collapseSl_cons_cons] at h
      by_cases hc : (c == '/' && c2 == '/') = true
      · rw [if_pos hc] at h
        exact List.mem_cons_of_mem c (ih h)
      · rw [if_neg hc] at h
        rcases List.mem_cons.mp h with h1 | h2
        · exact h1 ▸ List.mem_cons_self a _
        · exact List.mem_cons_of_mem c (ih h2)

theorem replBack_idem (c : Char) : replBack (replBack c) = replBack c := by
  by_cases h : (c == '\\') = true <;> simp [replBack, h]

theorem map_fixed {f : Char → Char} (l : List Char) (h : ∀ a ∈ l, f a = a) :
    l.map f = l := by
  induction l with
  | nil => rfl
  | cons a t ih =>
    simp [h a (List.mem_cons_self a t), ih fun b hb => h b (List.mem_cons_of_mem _ hb)]

theorem normPath_idem (s : String) : normPath (normPath s) = normPath s := by
  show String.mk (collapseSl ((collapseSl (s.data.map replBack)).map replBack))
      = String.mk (collapseSl (s.data.map replBack))
  have hmap : (collapseSl (s.data.map replBack)).map replBack
      = collapseSl (s.data.map replBack) := by
    apply map_fixed
    intro a ha
    obtain ⟨b, _, hb⟩ := List.mem_map.mp (mem_collapseSl a _ ha)
    rw [← hb]
    exact replBack_idem b
  rw [hmap, collapseSl_idem]

theorem dedupAux_cons (seen : List String) (p : String) (ps : List String) :
    dedupAux seen (p :: ps) =
      if normPath p ∈ seen then dedupAux seen ps
      else normPath p :: dedupAux (normPath p :: seen) ps := rfl

theorem dedupAux_mem (l : List String) (seen : List String) (x : String)
    (hx : x ∈ dedupAux seen l) : normPath x = x ∧ x ∉ seen := by
  induction l generalizing seen with
  | nil => cases hx
  | cons p ps ih =>
    rw [dedupAux_cons] at hx
    by_cases h : normPath p ∈ seen
    · rw [if_pos h] at hx
      exact ih seen hx
    · rw [if_neg h] at hx
      rcases List.mem_cons.mp hx with h1 | h2
      · subst h1
        exact ⟨normPath_idem p, h⟩
      · obtain ⟨hn, hs⟩ := ih (normPath p :: seen) h2
        exact ⟨hn, fun hmem => hs (List.mem_cons_of_mem _ hmem)⟩

theorem dedupAux_nodup (l : List String) (seen : List String) :
    (dedupAux seen l).Nodup := by
  induction l generalizing seen with
  | nil => exact List.nodup_nil
  | cons p ps ih =>
    rw [dedupAux_cons]
    by_cases h : normPath p ∈ seen
    · rw [if_pos h]; exact ih seen
    · rw [if_neg h]
      refine List.nodup_cons.mpr ⟨?_, ih _⟩
      intro hmem
      exact (dedupAux_mem ps _ _ hmem).2 (List.mem_cons_self _ _)

theorem dedupAux_fixed (l : List String) (seen : List String)
    (h1 : ∀ x ∈ l, normPath x = x) (h2 : l.Nodup) (h3 : ∀ x ∈ l, x ∉ seen) :
    dedupAux seen l = l := by
  induction l generalizing seen with
  | nil => rfl
  | cons p ps ih =>
    rw [dedupAux_cons]
    have hp : normPath p = p := h1 p (List.mem_cons_self p ps)
    have hps : p ∉ seen := h3 p (List.mem_cons_self p ps)
    rw [hp, if_neg hps]
    congr 1
    apply ih
    · exact fun x hx => h1 x (List.mem_cons_of_mem _ hx)
    · exact (List.nodup_cons.mp h2).2
    · intro x hx
      rw [List.mem_cons]
      push_neg
      constructor
      · intro he
        exact (List.nodup_cons.mp h2).1 (he ▸ hx)
      · exact h3 x (List.mem_cons_of_mem _ hx)

def seenAfter (seen : List String) : List String → List String
  | [] => seen
  | p :: ps => seenAfter (if normPath p ∈ seen then seen else normPath p :: seen) ps

theorem seenAfter_append (seen l1 l2 : List String) :
    seenAfter seen (l1 ++ l2) = seenAfter (seenAfter seen l1) l2 := by
  induction l1 generalizing seen with
  | nil => rfl
  | cons p ps ih => exact ih _

theorem seen_sub_seenAfter (seen l : List String) : seen ⊆ seenAfter seen l := by
  induction l generalizing seen with
  | nil => exact fun _ h => h
  | cons p ps ih =>
    intro x hx
    show x ∈ seenAfter (if normPath p ∈ seen then seen else normPath p :: seen) ps
    apply ih
    by_cases h : normPath p ∈ seen
    · rwa [if_pos h]
    · rw [if_neg h]; exact List.mem_cons_of_mem _ hx

theorem mem_seenAfter_last (seen l : List String) (a : String) :
    normPath a ∈ seenAfter seen (l ++ [a]) := by
  rw [seenAfter_append]
  show normPath a ∈ seenAfter (if normPath a ∈ seenAfter seen l then _ else _) []
  by_cases h : normPath a ∈ seenAfter seen l
  · rw [if_pos h]; exact h
  · rw [if_neg h]; exact List.mem_cons_self _ _

theorem dedupAux_append (seen l1 l2 : List String) :
    dedupAux seen (l1 ++ l2) = dedupAux seen l1 ++ dedupAux (seenAfter seen l1) l2 := by
  induction l1 generalizing seen with
  | nil => rfl
  | cons p ps ih =>
    simp only [List.cons_append, dedupAux_cons, seenAfter]
    by_cases h : normPath p ∈ seen
    · rw [if_pos h, if_pos h, if_pos h, ih]
    · rw [if_neg h, if_neg h, if_neg h, ih, List.cons_append]

theorem dedupAux_skip (seen : List String) (b : String) (z : List String)
    (h : normPath b ∈ seen) : dedupAux seen (b :: z) = dedupAux seen z := by
  rw [dedupAux_cons, if_pos h]

theorem firstIdx_cons_self (a : String) (l : List String) : firstIdx (a :: l) a = 0 := by
  simp [firstIdx]

theorem firstIdx_cons_ne (a b : String) (l : List String) (h : a ≠ b) :
    firstIdx (a :: l) b = firstIdx l b + 1 := by
  have hb : (a == b) = false := beq_eq_false_iff_ne.mpr h
  simp [firstIdx, hb]

theorem dedupAux_pairwise (l : List String) (seen : List String) :
    List.Pairwise
      (fun p q => firstIdx (l.map normPath) p < firstIdx (l.map normPath) q)
      (dedupAux seen l) := by
  induction l generalizing seen with
  | nil => exact List.Pairwise.nil
  | cons p ps ih =>
    rw [dedupAux_cons]
    by_cases h : normPath p ∈ seen
    · rw [if_pos h]
      refine (ih seen).imp_of_mem ?_
      intro a b ha hb hab
      have hna : a ≠ normPath p := fun he => (dedupAux_mem ps seen a ha).2 (he ▸ h)
      have hnb : b ≠ normPath p := fun he => (dedupAux_mem ps seen b hb).2 (he ▸ h)
      rw [List.map_cons, firstIdx_cons_ne _ _ _ (Ne.symm hna),
        firstIdx_cons_ne _ _ _ (Ne.symm hnb)]
      omega
    · rw [if_neg h]
      refine List.Pairwise.cons ?_ ?_
      · intro b hb
        have hnb : b ≠ normPath p :=
          fun he => (dedupAux_mem ps _ b hb).2 (he ▸ List.mem_cons_self _ _)
        rw [List.map_cons, firstIdx_cons_self, firstIdx_cons_ne _ _ _ (Ne.symm hnb)]
        omega
      · refine (ih (normPath p :: seen)).imp_of_mem ?_
        intro a b ha hb hab
        have hna : a ≠ normPath p :=
          fun he => (dedupAux_mem ps _ a ha).2 (he ▸ List.mem_cons_self _ _)
        have hnb : b ≠ normPath p :=
          fun he => (dedupAux_mem ps _ b hb).2 (he ▸ List.mem_cons_self _ _)
        rw [List.map_cons, firstIdx_cons_ne _ _ _ (Ne.symm hna),
          firstIdx_cons_ne _ _ _ (Ne.symm hnb)]
        omega

theorem dedupAux_complete (l : List String) (seen : List String) (p : String)
    (hp : p ∈ l) : normPath p ∈ dedupAux seen l ∨ normPath p ∈ seen := by
  induction l generalizing seen with
  | nil => cases hp
  | cons q qs ih =>
    rw [dedupAux_cons]
    by_cases h : normPath q ∈ seen
    · rw [if_pos h]
      rcases List.mem_cons.mp hp with h1 | h2
      · exact Or.inr (h1 ▸ h)
      · exact ih seen h2
    · rw [if_neg h]
      rcases List.mem_cons.mp hp with h1 | h2
      · exact Or.inl (h1 ▸ List.mem_cons_self _ _)
      · rcases ih (normPath q :: seen) h2 with h3 | h4
        · exact Or.inl (List.mem_cons_of_mem _ h3)
        · rcases List.mem_cons.mp h4 with h5 | h6
          · exact Or.inl (h5 ▸ List.mem_cons_self _ _)
          · exact Or.inr h6

/-- C5: path deduplication is idempotent; a later path equal after
normalization to an earlier one is dropped; every input path appears
normalized in the output; and output order follows the position of each
normalized path's first occurrence in the input. -/
theorem c5_deduplicate_paths_props (x y z l : List String) (a b : String) :
    deduplicate_paths (deduplicate_paths x) = deduplicate_paths x
    ∧ (normPath a = normPath b →
        deduplicate_paths (l ++ a :: y ++ b :: z) = deduplicate_paths (l ++ a :: y ++ z))
    ∧ (∀ p ∈ x, normPath p ∈ deduplicate_paths x)
    ∧ List.Pairwise
        (fun p q => firstIdx (x.map normPath) p < firstIdx (x.map normPath) q)
        (deduplicate_paths x) := by
  refine ⟨?_, ?_, ?_, ?_⟩
  · apply dedupAux_fixed
    · exact fun p hp => (dedupAux_mem x [] p hp).1
    · exact dedupAux_nodup x []
    · intro p _
      exact List.not_mem_nil p
  · intro hab
    have hmem : normPath b ∈ seenAfter [] ((l ++ [a]) ++ y) := by
      rw [seenAfter_append]
      apply seen_sub_seenAfter
      rw [← hab]
      exact mem_seenAfter_last [] l a
    have e1 : l ++ a :: y ++ b :: z = ((l ++ [a]) ++ y) ++ (b :: z) := by simp
    have e2 : l ++ a :: y ++ z = ((l ++ [a]) ++ y) ++ z := by simp
    rw [e1, e2]
    unfold deduplicate_paths
    rw [dedupAux_append [] ((l ++ [a]) ++ y) (b :: z),
      dedupAux_append [] ((l ++ [a]) ++ y) z,
      dedupAux_skip _ _ _ hmem]
  · exact fun p hp => (dedupAux_complete x [] p hp).resolve_right (List.not_mem_nil _)
  · exact dedupAux_pairwise x []

/-- C5 witness: idempotence and duplicate handling at concrete paths with
mixed separators. -/
theorem c5_witness :
    deduplicate_paths (deduplicate_paths ["/usr//lib", "C:\\opt", "/usr/lib"])
      = deduplicate_paths ["/usr//lib", "C:\\opt", "/usr/lib"]
    ∧ deduplicate_paths (["/usr"] ++ "/opt//x" :: ["/d"] ++ "/opt/x" :: ["/e"])
      = deduplicate_paths (["/usr"] ++ "/opt//x" :: ["/d"] ++ ["/e"]) :=
  ⟨(c5_deduplicate_paths_props ["/usr//lib", "C:\\opt", "/usr/lib"] ["/d"] ["/e"]
      ["/usr"] "/opt//x" "/opt/x").1,
    (c5_deduplicate_paths_props ["/usr//lib", "C:\\opt", "/usr/lib"] ["/d"] ["/e"]
      ["/usr"] "/opt//x" "/opt/x").2.1 rfl⟩

/- Claim C9: probed directories and name-major first match of `search_blas_lib`. -/

theorem firstHitPaths_cons (w : World) (pt : String) (rest : List String) (n : String) :
    firstHitPaths w (pt :: rest) n =
      if w.ex (osJoin w.plat pt n) then some pt else firstHitPaths w rest n := rfl

theorem firstHitPaths_none (w : World) (paths : List String) (n : String) :
    firstHitPaths w paths n = none ↔
      ∀ p ∈ paths, w.ex (osJoin w.plat p n) = false := by
  induction paths with
  | nil => simp [firstHitPaths]
  | cons pt rest ih =>
    rw [firstHitPaths_cons]
    by_cases hx : w.ex (osJoin w.plat pt n) = true
    · simp [hx]
    · have hx2 : w.ex (osJoin w.plat pt n) = false := by
        revert hx; cases w.ex (osJoin w.plat pt n) <;> simp
      simp [hx2, ih]

theorem firstHitPaths_some (w : World) (paths : List String) (n p : String)
    (h : firstHitPaths w paths n = some p) :
    ∃ l1 l2, paths = l1 ++ p :: l2 ∧ w.ex (osJoin w.plat p n) = true
      ∧ ∀ q ∈ l1, w.ex (osJoin w.plat q n) = false := by
  induction paths with
  | nil => cases h
  | cons pt rest ih =>
    rw [firstHitPaths_cons] at h
    by_cases hx : w.ex (osJoin w.plat pt n) = true
    · rw [if_pos hx] at h
      have hp : pt = p := by injection h
      subst hp
      exact ⟨[], rest, rfl, hx, fun q hq => absurd hq (List.not_mem_nil q)⟩
    · rw [if_neg hx] at h
      have hx2 : w.ex (osJoin w.plat pt n) = false := by
        revert hx; cases w.ex (osJoin w.plat pt n) <;> simp
      obtain ⟨l1, l2, he, hex, hall⟩ := ih h
      refine ⟨pt :: l1, l2, by rw [he, List.cons_append], hex, ?_⟩
      intro q hq
      rcases List.mem_cons.mp hq with h1 | h2
      · exact h1 ▸ hx2
      · exact hall q h2

theorem firstHit_cons (w : World) (sp : List String) (n : String) (ns : List String) :
    firstHit w sp (n :: ns) =
      match firstHitPaths w sp n with
      | some pt => some (pt, n)
      | none => firstHit w sp ns := rfl

theorem firstHit_none (w : World) (sp ns : List String) :
    firstHit w sp ns = none ↔
      ∀ n ∈ ns, ∀ p ∈ sp, w.ex (osJoin w.plat p n) = false := by
  induction ns with
  | nil => simp [firstHit]
  | cons n rest ih =>
    rw [firstHit_cons]
    cases hfp : firstHitPaths w sp n with
    | some pt =>
      simp only [List.mem_cons]
      constructor
      · intro h; cases h
      · intro h
        obtain ⟨l1, l2, he, hex, _⟩ := firstHitPaths_some w sp n pt hfp
        have hmem : pt ∈ sp := he ▸ List.mem_append_right l1 (List.mem_cons_self pt l2)
        rw [h n (Or.inl rfl) pt hmem] at hex
        exact (Bool.false_ne_true hex).elim
    | none =>
      simp only [ih]
      constructor
      · intro h n2 hn2 p hp
        rcases List.mem_cons.mp hn2 with h1 | h2
        · exact h1 ▸ (firstHitPaths_none w sp n).mp hfp p hp
        · exact h n2 h2 p hp
      · intro h n2 hn2 p hp
        exact h n2 (List.mem_cons_of_mem n hn2) p hp

theorem firstHit_some (w : World) (sp ns : List String) (p f : String)
    (h : firstHit w sp ns = some (p, f)) :
    ∃ ns1 ns2 l1 l2,
      ns = ns1 ++ f :: ns2 ∧ sp = l1 ++ p :: l2
      ∧ w.ex (osJoin w.plat p f) = true
      ∧ (∀ n ∈ ns1, ∀ q ∈ sp, w.ex (osJoin w.plat q n) = false)
      ∧ (∀ q ∈ l1, w.ex (osJoin w.plat q f) = false) := by
  induction ns with
  | nil => cases h
  | cons n rest ih =>
    rw [firstHit_cons] at h
    cases hfp : firstHitPaths w sp n with
    | some pt =>
      rw [hfp] at h
      have h1 : (pt, n) = (p, f) := by injection h
      obtain ⟨l1, l2, he, hex, hall⟩ := firstHitPaths_some w sp n pt hfp
      have hp1 : pt = p := congrArg Prod.fst h1
      have hf1 : n = f := congrArg Prod.snd h1
      subst hp1; subst hf1
      exact ⟨[], rest, l1, l2, rfl, he, hex,
        fun n2 hn2 => absurd hn2 (List.not_mem_nil n2), hall⟩
    | none =>
      rw [hfp] at h
      obtain ⟨ns1, ns2, l1, l2, e1, e2, hex, hall1, hall2⟩ := ih h
      refine ⟨n :: ns1, ns2, l1, l2, by rw [e1, List.cons_append], e2, hex, ?_, hall2⟩
      intro n2 hn2 q hq
      rcases List.mem_cons.mp hn2 with h1 | h2
      · exact h1 ▸ (firstHitPaths_none w sp n).mp hfp q hq
      · exact hall1 n2 h2 q hq

/-- C9: with a suffix list, the probed directories are exactly the original
search paths followed by, for each suffix in order, each original path with
the suffix concatenated directly (no separator); the returned pair is the
first existing (name, path) pair in name-major order. -/
theorem c9_search_blas_lib_spec (w : World) (sp names ss : List String) :
    search_blas_lib w sp names (some ss)
        = firstHit w (sp ++ ss.flatMap fun s => sp.map fun pt => pt ++ s) names
    ∧ (∀ p f, search_blas_lib w sp names (some ss) = some (p, f) →
        ∃ ns1 ns2 l1 l2,
          names = ns1 ++ f :: ns2
          ∧ sp ++ (ss.flatMap fun s => sp.map fun pt => pt ++ s) = l1 ++ p :: l2
          ∧ w.ex (osJoin w.plat p f) = true
          ∧ (∀ n ∈ ns1, ∀ q ∈ sp ++ (ss.flatMap fun s => sp.map fun pt => pt ++ s),
              w.ex (osJoin w.plat q n) = false)
          ∧ (∀ q ∈ l1, w.ex (osJoin w.plat q f) = false))
    ∧ (search_blas_lib w sp names (some ss) = none →
        ∀ n ∈ names, ∀ q ∈ sp ++ (ss.flatMap fun s => sp.map fun pt => pt ++ s),
          w.ex (osJoin w.plat q n) = false) := by
  refine ⟨rfl, ?_, ?_⟩
  · intro p f h
    exact firstHit_some w _ names p f h
  · intro h
    exact (firstHit_none w _ names).mp h

def w9 : World :=
  { trivWorld .linux with ex := fun s => s == "/usr/libopenblas/libopenblas.so" }

/-- C9 witness: a path `/usr/lib` with suffix `openblas` probes
`/usr/libopenblas` (direct concatenation) and the match is found there. -/
theorem c9_witness :
    ∃ ns1 ns2 l1 l2,
      ["libopenblas.so"] = ns1 ++ "libopenblas.so" :: ns2
      ∧ ["/usr/lib"] ++ (["openblas"].flatMap fun s => ["/usr/lib"].map fun pt => pt ++ s)
          = l1 ++ "/usr/libopenblas" :: l2
      ∧ w9.ex (osJoin w9.plat "/usr/libopenblas" "libopenblas.so") = true
      ∧ (∀ n ∈ ns1,
          ∀ q ∈ ["/usr/lib"] ++ (["openblas"].flatMap fun s => ["/usr/lib"].map fun pt => pt ++ s),
          w9.ex (osJoin w9.plat q n) = false)
      ∧ (∀ q ∈ l1, w9.ex (osJoin w9.plat q "libopenblas.so") = false) :=
  (c9_search_blas_lib_spec w9 ["/usr/lib"] ["libopenblas.so"] ["openblas"]).2.1
    "/usr/libopenblas" "libopenblas.so" rfl

/- Claim C6: flag-set invariant of every search result. -/

def vendorFlagsL : List String :=
  ["HAS_MKL", "HAS_OPENBLAS", "HAS_BLIS", "HAS_ATLAS", "HAS_GSL"]

/-- At most one vendor identity flag, and the unidentified-vendor flag only
in the absence of any vendor identity flag. -/
def GoodFlags (fl : List String) : Prop :=
  (∀ v1 ∈ vendorFlagsL, v1 ∈ fl → ∀ v2 ∈ vendorFlagsL, v2 ∈ fl → v1 = v2)
  ∧ ("UNKNWON_BLAS" ∈ fl → ∀ v ∈ vendorFlagsL, v ∉ fl)

instance (fl : List String) : Decidable (GoodFlags fl) := by
  unfold GoodFlags
  infer_instance

theorem readelfScan_nil (b1 b2 b3 : Bool) :
    readelfScan [] b1 b2 b3 =
      (if b3 then
        (true, some ((if !b1 then ["NO_CBLAS"] else [])
          ++ (if b2 then ["HAS_UNDERSCORES"] else [])))
      else (true, none)) := by
  cases b3 <;> rfl

theorem readelfScan_cons (s : String) (rest : List String) (b1 b2 b3 : Bool) :
    readelfScan (s :: rest) b1 b2 b3 =
      if hasInfixS "openblas" s then (true, some ["HAS_OPENBLAS", "HAS_UNDERSCORES"])
      else if hasInfixS "bli_axpyd" s then (true, some ["HAS_BLIS", "HAS_UNDERSCORES"])
      else if hasInfixS "mkl_dcsrgemv" s then (true, some ["HAS_MKL"])
      else readelfScan rest (b1 || hasInfixS "cblas_ddot" s)
        (b2 || hasDdotUnd s.data) (b3 || hasInfixS "ddot" s) := rfl

theorem readelfScan_flags (toks : List String) (b1 b2 b3 : Bool) (fl : List String)
    (h : (readelfScan toks b1 b2 b3).2 = some fl) : GoodFlags fl := by
  induction toks generalizing b1 b2 b3 with
  | nil =>
    rw [readelfScan_nil] at h
    cases b3 with
    | false => simp at h
    | true =>
      simp only [if_true] at h
      cases b1 <;> cases b2 <;> (simp at h; subst h; decide)
  | cons s rest ih =>
    rw [readelfScan_cons] at h
    by_cases h1 : hasInfixS "openblas" s = true
    · rw [if_pos h1] at h; simp at h; subst h; decide
    · rw [if_neg h1] at h
      by_cases h2 : hasInfixS "bli_axpyd" s = true
      · rw [if_pos h2] at h; simp at h; subst h; decide
      · rw [if_neg h2] at h
        by_cases h3 : hasInfixS "mkl_dcsrgemv" s = true
        · rw [if_pos h3] at h; simp at h; subst h; decide
        · rw [if_neg h3] at h
          exact ih _ _ _ h

theorem find_symbols_flags (fi : FileInfo) (fl : List String)
    (h : (find_symbols fi).2 = some fl) : GoodFlags fl := by
  unfold find_symbols at h
  split_ifs at h <;>
    first
      | (exact readelfScan_flags _ _ _ _ _ h)
      | (simp at h; subst h; decide)

theorem inspectStep_cases (w : World) (pt f : String) :
    inspectStep w pt f = (true, false, [])
    ∨ (∃ fl, (find_symbols (w.fi pt f)).2 = some fl
        ∧ inspectStep w pt f = (false, true, fl))
    ∨ inspectStep w pt f = (false, false, []) := by
  by_cases hw : (w.plat != Platform.win) = true
  · cases hfs : (find_symbols (w.fi pt f)).1 with
    | false =>
      left
      unfold inspectStep
      simp [hw, hfs]
    | true =>
      cases hopt : (find_symbols (w.fi pt f)).2 with
      | some fl =>
        right; left
        refine ⟨fl, rfl, ?_⟩
        unfold inspectStep
        simp [hw, hfs, hopt]
      | none =>
        right; right
        unfold inspectStep
        simp [hw, hfs, hopt]
  · left
    unfold inspectStep
    simp [hw]

theorem check_is_blas_eq (w : World) (pt f : String) (allow : Bool) (rs : List String) :
    check_is_blas w pt f allow rs =
      if (inspectStep w pt f).1 && allow then
        match promptLoop rs with
        | .error e => .error e
        | .ok (true, rs2) => .ok (true, (inspectStep w pt f).2.2 ++ ["UNKNWON_BLAS"], rs2)
        | .ok (false, rs2) => .ok (false, (inspectStep w pt f).2.2, rs2)
      else .ok ((inspectStep w pt f).2.1, (inspectStep w pt f).2.2, rs) := rfl

theorem check_is_blas_flags (w : World) (pt f : String) (allow : Bool)
    (rs rs2 : List String) (fl : List String)
    (h : check_is_blas w pt f allow rs = .ok (true, fl, rs2)) : GoodFlags fl := by
  rw [check_is_blas_eq] at h
  rcases inspectStep_cases w pt f with hc | ⟨fl2, hfl2, hc⟩ | hc <;> rw [hc] at h
  · cases allow with
    | false => simp at h
    | true =>
      simp only [Bool.and_self, if_true] at h
      cases hp : promptLoop rs with
      | error e =>
        simp only [hp] at h
        cases h
      | ok pr =>
        obtain ⟨bl, rs3⟩ := pr
        simp only [hp] at h
        cases bl with
        | true =>
          simp at h
          obtain ⟨hfl, _⟩ := h
          subst hfl
          decide
        | false => simp at h
  · simp at h
    obtain ⟨hfl, _⟩ := h
    subst hfl
    exact find_symbols_flags _ _ hfl2
  · simp at h

theorem tryCandidates_flags (w : World) (allow : Bool) (cands : List (String × String))
    (rs rs2 : List String) (p f : String) (fl : List String)
    (h : tryCandidates w allow cands rs = .ok (some (p, f, fl), rs2)) : GoodFlags fl := by
  induction cands generalizing rs with
  | nil => simp [tryCandidates] at h
  | cons c rest ih =>
    obtain ⟨pt, f2⟩ := c
    have hstep : tryCandidates w allow ((pt, f2) :: rest) rs =
        match check_is_blas w pt f2 allow rs with
        | .error e => .error e
        | .ok (true, fl2, rs3) => .ok (some (pt, f2, fl2), rs3)
        | .ok (false, _, rs3) => tryCandidates w allow rest rs3 := rfl
    rw [hstep] at h
    cases hc : check_is_blas w pt f2 allow rs with
    | error e =>
      simp only [hc] at h
      cases h
    | ok tr =>
      obtain ⟨bl, fl2, rs3⟩ := tr
      simp only [hc] at h
      cases bl with
      | true =>
        simp at h
        obtain ⟨⟨_, _, hfl⟩, _⟩ := h
        subst hfl
        exact check_is_blas_flags w pt f2 allow rs rs3 fl2 hc
      | false => exact ih rs3 h

theorem genericFlags_good (w : World) (p f : String) : GoodFlags (genericFlags w p f) := by
  unfold genericFlags
  by_cases hw : (w.plat != Platform.win) = true
  · rw [if_pos hw]
    cases hopt : (find_symbols (w.fi p f)).2 with
    | some fl => exact find_symbols_flags _ _ hopt
    | none => decide
  · rw [if_neg hw]; decide

theorem genericSearch_flags (w : World) (sp : List String) (p f : String)
    (fl : List String) (h : genericSearch w sp = some (p, f, fl)) : GoodFlags fl := by
  unfold genericSearch at h
  cases h1 : search_blas_lib w sp ((extList w.plat).map fun e => prefS w.plat ++ "cblas" ++ e) none with
  | some pr =>
    obtain ⟨p2, f2⟩ := pr
    simp only [h1] at h
    simp at h
    obtain ⟨_, _, hfl⟩ := h
    subst hfl
    exact genericFlags_good w p2 f2
  | none =>
    simp only [h1] at h
    cases h2 : search_blas_lib w sp
        ((extList w.plat).map (fun e => prefS w.plat ++ "blas" ++ e)
          ++ (extList w.plat).map fun e => prefS w.plat ++ "BLAS" ++ e) none with
    | some pr =>
      obtain ⟨p2, f2⟩ := pr
      simp only [h2] at h
      simp at h
      obtain ⟨_, _, hfl⟩ := h
      subst hfl
      exact genericFlags_good w p2 f2
    | none =>
      simp only [h2] at h
      cases h

theorem npTry_flags (w : World) (p f : String) (fl : List String)
    (h : npTry w = some (p, f, fl)) : GoodFlags fl := by
  unfold npTry at h
  cases hd : w.npLibsDir with
  | none =>
    simp only [hd] at h
    cases h
  | some d =>
    simp only [hd] at h
    by_cases hex : w.ex d = true
    · rw [if_pos hex] at h
      cases hfilt : (w.listdir d).filter (fun f2 => hasInfixS "blas" f2) with
      | nil =>
        simp only [hfilt] at h
        cases h
      | cons f2 rest =>
        simp only [hfilt] at h
        by_cases hw : (w.plat != Platform.win) = true
        · rw [if_pos hw] at h
          cases hfs : (find_symbols (w.fi d f2)).1 with
          | false =>
            simp only [hfs, Bool.false_eq_true, if_false] at h
            simp at h
            obtain ⟨_, _, hfl⟩ := h
            subst hfl
            decide
          | true =>
            simp only [hfs, if_true] at h
            cases hopt : (find_symbols (w.fi d f2)).2 with
            | none =>
              simp only [hopt] at h
              cases h
            | some fl2 =>
              simp only [hopt] at h
              simp at h
              obtain ⟨_, _, hfl⟩ := h
              subst hfl
              exact find_symbols_flags _ _ hopt
        · rw [if_neg hw] at h
          simp at h
          obtain ⟨_, _, hfl⟩ := h
          subst hfl
          decide
    · rw [if_neg hex] at h
      cases h

theorem spTryInspect_flags (w : World) (bp bf p f : String) (fl : List String)
    (h : spTryInspect w bp bf = some (p, f, fl)) : GoodFlags fl := by
  unfold spTryInspect at h
  by_cases hw : (w.plat != Platform.win) = true
  · rw [if_pos hw] at h
    cases hfs : (find_symbols (w.fi bp bf)).1 with
    | false =>
      simp only [hfs, Bool.false_eq_true, if_false] at h
      simp at h
      obtain ⟨_, _, hfl⟩ := h
      subst hfl
      decide
    | true =>
      simp only [hfs, if_true] at h
      cases hopt : (find_symbols (w.fi bp bf)).2 with
      | none =>
        simp only [hopt] at h
        cases h
      | some fl2 =>
        simp only [hopt] at h
        simp at h
        obtain ⟨_, _, hfl⟩ := h
        subst hfl
        exact find_symbols_flags _ _ hopt
  · rw [if_neg hw] at h
    simp at h
    obtain ⟨_, _, hfl⟩ := h
    subst hfl
    decide

theorem spTry_flags (w : World) (p f : String) (fl : List String)
    (h : spTry w = some (p, f, fl)) : GoodFlags fl := by
  unfold spTry at h
  cases hd : w.scipyFile with
  | none =>
    simp only [hd] at h
    cases h
  | some path0 =>
    simp only [hd] at h
    cases hls : lastSplit ['/'] (path0.data.map replBack) with
    | some ab =>
      obtain ⟨aa, bb⟩ := ab
      simp only [hls] at h
      exact spTryInspect_flags w _ _ p f fl h
    | none =>
      simp only [hls] at h
      exact spTryInspect_flags w _ _ p f fl h

theorem searchStages_flags (w : World) (sp : List String)
    (stages : List (List String × Option (List String) × List String))
    (p f : String) (fl : List String)
    (h : searchStages w sp stages = some (p, f, fl)) : ∃ st ∈ stages, st.2.2 = fl := by
  induction stages with
  | nil => cases h
  | cons st rest ih =>
    obtain ⟨names, suff, fl2⟩ := st
    have hstep : searchStages w sp ((names, suff, fl2) :: rest) =
        match search_blas_lib w sp names suff with
        | some (p2, f2) => some (p2, f2, fl2)
        | none => searchStages w sp rest := rfl
    rw [hstep] at h
    cases hs : search_blas_lib w sp names suff with
    | some pr =>
      obtain ⟨p2, f2⟩ := pr
      simp only [hs] at h
      simp at h
      obtain ⟨_, _, hfl⟩ := h
      exact ⟨(names, suff, fl2), List.mem_cons_self _ _, hfl⟩
    | none =>
      simp only [hs] at h
      obtain ⟨st2, hmem, hfl⟩ := ih h
      exact ⟨st2, List.mem_cons_of_mem _ hmem, hfl⟩

theorem vendorSearch_flags (w : World) (sp : List String) (p f : String)
    (fl : List String) (h : vendorSearch w sp = some (p, f, fl)) : GoodFlags fl := by
  obtain ⟨st, hmem, hfl⟩ := searchStages_flags w sp _ p f fl h
  subst hfl
  fin_cases hmem <;> (dsimp only; decide)

theorem mkFindOk_flags (p f : String) (incl : Option (String × String))
    (fl : List String) : (mkFindOk p f incl fl).flags = fl := rfl

theorem goodflags_finalize (w : World) (p f : String) (fl : List String)
    (hg : GoodFlags fl) : GoodFlags ((finalize w p f fl).flags) := by
  unfold finalize
  split_ifs with h1 h2 h3 h4 h5
  · exact hg
  · exact hg
  · exact hg
  · exact hg
  · exact hg
  · rw [mkFindOk_flags]
    have hnv : ∀ v ∈ vendorFlagsL, v ∉ fl := by
      intro v hv
      fin_cases hv <;> assumption
    constructor
    · intro v1 hv1 hm1 v2 hv2 hm2
      rcases List.mem_append.mp hm1 with hx | hx
      · exact absurd hx (hnv v1 hv1)
      · have hv1u : v1 = "UNKNWON_BLAS" := by simpa using hx
        subst hv1u
        exact absurd hv1 (by decide)
    · intro _ v hv hm
      rcases List.mem_append.mp hm with hx | hx
      · exact (hnv v hv) hx
      · have hvu : v = "UNKNWON_BLAS" := by simpa using hx
        subst hvu
        exact absurd hv (by decide)

theorem find_blas_core_flags (w : World) (allow : Bool) (sp : List String)
    (res : FindOk) (h : find_blas_core w allow sp = .ok res) : GoodFlags res.flags := by
  unfold find_blas_core at h
  cases hv : vendorSearch w sp with
  | some t =>
    obtain ⟨p, f, fl⟩ := t
    simp only [hv] at h
    have hres : finalize w p f fl = res := by injection h
    subst hres
    exact goodflags_finalize w p f fl (vendorSearch_flags w sp p f fl hv)
  | none =>
    simp only [hv] at h
    cases hg : genericSearch w sp with
    | some t =>
      obtain ⟨p, f, fl⟩ := t
      simp only [hg] at h
      have hres : finalize w p f fl = res := by injection h
      subst hres
      exact goodflags_finalize w p f fl (genericSearch_flags w sp p f fl hg)
    | none =>
      simp only [hg] at h
      cases ht : tryCandidates w allow (regexCandidates w sp) w.replies with
      | error e =>
        simp only [ht] at h
        cases h
      | ok pr =>
        obtain ⟨o, rs2⟩ := pr
        cases o with
        | some t =>
          obtain ⟨p, f, fl⟩ := t
          simp only [ht] at h
          have hres : finalize w p f fl = res := by injection h
          subst hres
          exact goodflags_finalize w p f fl
            (tryCandidates_flags w allow _ _ rs2 p f fl ht)
        | none =>
          simp only [ht] at h
          cases hnp : npTry w with
          | some t =>
            obtain ⟨p, f, fl⟩ := t
            simp only [hnp] at h
            have hres : finalize w p f fl = res := by injection h
            subst hres
            exact goodflags_finalize w p f fl (npTry_flags w p f fl hnp)
          | none =>
            simp only [hnp] at h
            cases hsp : spTry w with
            | some t =>
              obtain ⟨p, f, fl⟩ := t
              simp only [hsp] at h
              have hres : finalize w p f fl = res := by injection h
              subst hres
              exact goodflags_finalize w p f fl (spTry_flags w p f fl hsp)
            | none =>
              simp only [hsp] at h
              cases h

/-- C6: every flag list returned by the search contains at most one vendor
identity flag, and contains UNKNWON_BLAS only when it contains no vendor
identity flag. -/
theorem c6_flags_invariant (w : World) (a b : Bool) (res : FindOk)
    (h : find_blas w a b = .ok res) :
    (∀ v1 ∈ vendorFlagsL, v1 ∈ res.flags → ∀ v2 ∈ vendorFlagsL, v2 ∈ res.flags → v1 = v2)
    ∧ ("UNKNWON_BLAS" ∈ res.flags → ∀ v ∈ vendorFlagsL, v ∉ res.flags) :=
  find_blas_core_flags w a (deduplicate_paths w.candidate_paths) res h

def w6 : World :=
  { trivWorld .linux with
      candidate_paths := ["/d"],
      ex := fun s => s == "/d/libmkl_rt.so" }

def r6 : FindOk := ⟨"/d", "libmkl_rt.so", none, none, ["HAS_MKL"]⟩

/-- C6 witness: the invariant at a concrete world whose search finds MKL. -/
theorem c6_witness :
    (∀ v1 ∈ vendorFlagsL, v1 ∈ r6.flags → ∀ v2 ∈ vendorFlagsL, v2 ∈ r6.flags → v1 = v2)
    ∧ ("UNKNWON_BLAS" ∈ r6.flags → ∀ v ∈ vendorFlagsL, v ∉ r6.flags) :=
  c6_flags_invariant w6 true true r6 rfl

/- Claim C7: the fatal not-found error. -/

theorem search_blas_lib_exFalse (w : World) (sp names : List String)
    (suff : Option (List String)) (hex : ∀ s, w.ex s = false) :
    search_blas_lib w sp names suff = none := by
  unfold search_blas_lib
  apply (firstHit_none w _ names).mpr
  intro n _ p _
  exact hex _

theorem searchStages_exFalse (w : World) (sp : List String)
    (stages : List (List String × Option (List String) × List String))
    (hex : ∀ s, w.ex s = false) : searchStages w sp stages = none := by
  induction stages with
  | nil => rfl
  | cons st rest ih =>
    obtain ⟨names, suff, fl⟩ := st
    have hstep : searchStages w sp ((names, suff, fl) :: rest) =
        match search_blas_lib w sp names suff with
        | some (p2, f2) => some (p2, f2, fl)
        | none => searchStages w sp rest := rfl
    rw [hstep, search_blas_lib_exFalse w sp names suff hex]
    exact ih

theorem genericSearch_exFalse (w : World) (sp : List String)
    (hex : ∀ s, w.ex s = false) : genericSearch w sp = none := by
  unfold genericSearch
  rw [search_blas_lib_exFalse w sp _ none hex, search_blas_lib_exFalse w sp _ none hex]

theorem flatMap_eq_nil {α β : Type} (l : List α) (g : α → List β)
    (h : ∀ x ∈ l, g x = []) : l.flatMap g = [] := by
  induction l with
  | nil => rfl
  | cons a t ih =>
    simp only [List.flatMap_cons, h a (List.mem_cons_self a t), List.nil_append]
    exact ih fun x hx => h x (List.mem_cons_of_mem _ hx)

theorem regexCandidates_exFalse (w : World) (sp : List String)
    (hex : ∀ s, w.ex s = false) : regexCandidates w sp = [] := by
  simp only [regexCandidates]
  rw [flatMap_eq_nil sp _ (fun pt _ => by simp [hex pt]),
    flatMap_eq_nil sp _ (fun pt _ => by simp [hex pt])]
  rfl

theorem npTry_none (w : World) (hd : w.npLibsDir = none) : npTry w = none := by
  unfold npTry
  rw [hd]

theorem spTry_none (w : World) (hd : w.scipyFile = none) : spTry w = none := by
  unfold spTry
  rw [hd]

theorem find_blas_core_notfound (w : World) (allow : Bool) (sp : List String)
    (hv : vendorSearch w sp = none) (hg : genericSearch w sp = none)
    (hrc : regexCandidates w sp = []) (hnp : npTry w = none) (hsp : spTry w = none) :
    find_blas_core w allow sp = .error (.notFound err_msg) := by
  unfold find_blas_core
  simp only [hv, hg, hrc, hnp, hsp]
  rfl

theorem promptLoop_error (rs : List String) (e : FErr) (h : promptLoop rs = .error e) :
    e = FErr.emptyReply ∨ e = FErr.eofInput := by
  induction rs with
  | nil =>
    right
    injection h with h1
    exact h1.symm
  | cons r rest ih =>
    have hstep : promptLoop (r :: rest) =
        match (lowerS r).data with
        | [] => .error .emptyReply
        | c :: _ =>
          if c == 'y' then .ok (true, rest)
          else if c == 'n' then .ok (false, rest)
          else promptLoop rest := rfl
    rw [hstep] at h
    cases hl : (lowerS r).data with
    | nil =>
      simp only [hl] at h
      left
      injection h with h1
      exact h1.symm
    | cons c t =>
      simp only [hl] at h
      by_cases hy : (c == 'y') = true
      · rw [if_pos hy] at h; cases h
      · rw [if_neg hy] at h
        by_cases hn : (c == 'n') = true
        · rw [if_pos hn] at h; cases h
        · rw [if_neg hn] at h
          exact ih h

theorem check_is_blas_error (w : World) (pt f : String) (allow : Bool)
    (rs : List String) (e : FErr) (h : check_is_blas w pt f allow rs = .error e) :
    e = FErr.emptyReply ∨ e = FErr.eofInput := by
  rw [check_is_blas_eq] at h
  by_cases hc : ((inspectStep w pt f).1 && allow) = true
  · rw [if_pos hc] at h
    cases hp : promptLoop rs with
    | error e2 =>
      simp only [hp] at h
      injection h with h1
      exact h1 ▸ promptLoop_error rs e2 hp
    | ok pr =>
      obtain ⟨bl, rs2⟩ := pr
      simp only [hp] at h
      cases bl with
      | true => cases h
      | false => cases h
  · rw [if_neg hc] at h
    cases h

theorem tryCandidates_error (w : World) (allow : Bool)
    (cands : List (String × String)) (rs : List String) (e : FErr)
    (h : tryCandidates w allow cands rs = .error e) :
    e = FErr.emptyReply ∨ e = FErr.eofInput := by
  induction cands generalizing rs with
  | nil => cases h
  | cons c rest ih =>
    obtain ⟨pt, f2⟩ := c
    have hstep : tryCandidates w allow ((pt, f2) :: rest) rs =
        match check_is_blas w pt f2 allow rs with
        | .error e2 => .error e2
        | .ok (true, fl2, rs3) => .ok (some (pt, f2, fl2), rs3)
        | .ok (false, _, rs3) => tryCandidates w allow rest rs3 := rfl
    rw [hstep] at h
    cases hc : check_is_blas w pt f2 allow rs with
    | error e2 =>
      simp only [hc] at h
      injection h with h1
      exact h1 ▸ check_is_blas_error w pt f2 allow rs e2 hc
    | ok tr =>
      obtain ⟨bl, fl2, rs3⟩ := tr
      simp only [hc] at h
      cases bl with
      | true => cases h
      | false => exact ih rs3 h

theorem find_blas_core_notfound_inv (w : World) (allow : Bool) (sp : List String)
    (msg : String) (h : find_blas_core w allow sp = .error (.notFound msg)) :
    msg = err_msg
    ∧ vendorSearch w sp = none
    ∧ genericSearch w sp = none
    ∧ (∃ rs2, tryCandidates w allow (regexCandidates w sp) w.replies = .ok (none, rs2))
    ∧ npTry w = none ∧ spTry w = none := by
  unfold find_blas_core at h
  cases hv : vendorSearch w sp with
  | some t =>
    obtain ⟨p, f, fl⟩ := t
    simp only [hv] at h
    cases h
  | none =>
    simp only [hv] at h
    cases hg : genericSearch w sp with
    | some t =>
      obtain ⟨p, f, fl⟩ := t
      simp only [hg] at h
      cases h
    | none =>
      simp only [hg] at h
      cases ht : tryCandidates w allow (regexCandidates w sp) w.replies with
      | error e =>
        simp only [ht] at h
        have he : e = FErr.notFound msg := by injection h
        rcases tryCandidates_error w allow _ _ e ht with h1 | h1 <;>
          (rw [he] at h1; cases h1)
      | ok pr =>
        obtain ⟨o, rs2⟩ := pr
        cases o with
        | some t =>
          obtain ⟨p, f, fl⟩ := t
          simp only [ht] at h
          cases h
        | none =>
          simp only [ht] at h
          cases hnp : npTry w with
          | some t =>
            obtain ⟨p, f, fl⟩ := t
            simp only [hnp] at h
            cases h
          | none =>
            simp only [hnp] at h
            cases hsp : spTry w with
            | some t =>
              obtain ⟨p, f, fl⟩ := t
              simp only [hsp] at h
              cases h
            | none =>
              simp only [hsp] at h
              have hmsg : FErr.notFound err_msg = FErr.notFound msg := by injection h
              have hmsg2 : msg = err_msg := by
                injection hmsg with h2
                exact h2.symm
              exact ⟨hmsg2, rfl, rfl, ⟨rs2, rfl⟩, rfl, rfl⟩

def w7c : World := trivWorld .dar

/-- C7 counterexample: at a concrete empty world the search does raise the
single not-found error, but its message contains no install wording in
either case — it instead tells the user to modify setup.py — so the clause
that the message "suggests an install action" is false of the program. -/
theorem c7_counterexample :
    find_blas w7c true true = .error (.notFound err_msg)
    ∧ hasInfixS "MKL" err_msg = true
    ∧ hasInfixS "install" err_msg = false
    ∧ hasInfixS "Install" err_msg = false
    ∧ hasInfixS "setup.py" err_msg = true := by
  refine ⟨?_, rfl, rfl, rfl, rfl⟩
  rfl

/-- C7 (amended): with no matching file anywhere and both last-resort
fallback packages absent, the search raises exactly the descriptive
not-found error, whose message names the five supported vendors and
suggests a manual action (modifying setup.py to add the BLAS path) rather
than an install; conversely this error is raised only when the vendor
passes, the generic pass, the regex-matching pass and both fallbacks have
all been exhausted, and only with this message. -/
theorem c7_notfound_error (w : World) (a b : Bool) :
    ((∀ s, w.ex s = false) → w.npLibsDir = none → w.scipyFile = none →
      find_blas w a b = .error (.notFound err_msg)
      ∧ hasInfixS "MKL" err_msg = true
      ∧ hasInfixS "OpenBLAS" err_msg = true
      ∧ hasInfixS "BLIS" err_msg = true
      ∧ hasInfixS "ATLAS" err_msg = true
      ∧ hasInfixS "GSL" err_msg = true
      ∧ hasInfixS "setup.py" err_msg = true
      ∧ hasInfixS "install" err_msg = false
      ∧ hasInfixS "Install" err_msg = false)
    ∧ (∀ msg, find_blas w a b = .error (.notFound msg) →
      msg = err_msg
      ∧ vendorSearch w (deduplicate_paths w.candidate_paths) = none
      ∧ genericSearch w (deduplicate_paths w.candidate_paths) = none
      ∧ (∃ rs2, tryCandidates w a
          (regexCandidates w (deduplicate_paths w.candidate_paths)) w.replies
            = .ok (none, rs2))
      ∧ npTry w = none ∧ spTry w = none) := by
  constructor
  · intro hex hnp hsp
    refine ⟨?_, rfl, rfl, rfl, rfl, rfl, rfl, rfl, rfl⟩
    show find_blas_core w a (deduplicate_paths w.candidate_paths)
        = .error (.notFound err_msg)
    have hrc := regexCandidates_exFalse w (deduplicate_paths w.candidate_paths) hex
    exact find_blas_core_notfound w a _
      (searchStages_exFalse w _ _ hex)
      (genericSearch_exFalse w _ hex)
      hrc (npTry_none w hnp) (spTry_none w hsp)
  · intro msg h
    exact find_blas_core_notfound_inv w a _ msg h

def w7 : World := trivWorld .linux

/-- C7 witness: the amended theorem at a concrete empty world. -/
theorem c7_witness :
    find_blas w7 true true = .error (.notFound err_msg)
    ∧ hasInfixS "MKL" err_msg = true
    ∧ hasInfixS "OpenBLAS" err_msg = true
    ∧ hasInfixS "BLIS" err_msg = true
    ∧ hasInfixS "ATLAS" err_msg = true
    ∧ hasInfixS "GSL" err_msg = true
    ∧ hasInfixS "setup.py" err_msg = true
    ∧ hasInfixS "install" err_msg = false
    ∧ hasInfixS "Install" err_msg = false :=
  (c7_notfound_error w7 true true).1 (fun _ => rfl) rfl rfl

/- Claims C3 and C1. -/

theorem finalize_blas_path (w : World) (p f : String) (fl : List String) :
    (finalize w p f fl).blas_path = p := by
  unfold finalize
  split_ifs <;> rfl

theorem finalize_blas_file (w : World) (p f : String) (fl : List String) :
    (finalize w p f fl).blas_file = f := by
  unfold finalize
  split_ifs <;> rfl

theorem finalize_flags_mkl (w : World) (p f : String) (fl : List String)
    (h : "HAS_MKL" ∈ fl) : (finalize w p f fl).flags = fl := by
  unfold finalize
  rw [if_pos h]
  rfl

theorem finalize_flags_unknown (w : World) (p f : String) (fl : List String)
    (h1 : "HAS_MKL" ∉ fl) (h2 : "HAS_OPENBLAS" ∉ fl) (h3 : "HAS_BLIS" ∉ fl)
    (h4 : "HAS_ATLAS" ∉ fl) (h5 : "HAS_GSL" ∉ fl) :
    (finalize w p f fl).flags = fl ++ ["UNKNWON_BLAS"] := by
  unfold finalize
  rw [if_neg h1, if_neg h2, if_neg h3, if_neg h4, if_neg h5]
  rfl

theorem firstHit_isSome (w : World) (sp ns : List String) (p n : String)
    (hp : p ∈ sp) (hn : n ∈ ns) (hex : w.ex (osJoin w.plat p n) = true) :
    ∃ p2 f2, firstHit w sp ns = some (p2, f2) ∧ f2 ∈ ns ∧ p2 ∈ sp
      ∧ w.ex (osJoin w.plat p2 f2) = true := by
  cases hres : firstHit w sp ns with
  | none =>
    have hfalse := (firstHit_none w sp ns).mp hres n hn p hp
    rw [hex] at hfalse
    cases hfalse
  | some pf =>
    obtain ⟨p2, f2⟩ := pf
    obtain ⟨ns1, ns2, l1, l2, e1, e2, hx, _, _⟩ := firstHit_some w sp ns p2 f2 hres
    refine ⟨p2, f2, rfl, ?_, ?_, hx⟩
    · rw [e1]; exact List.mem_append_right ns1 (List.mem_cons_self f2 ns2)
    · rw [e2]; exact List.mem_append_right l1 (List.mem_cons_self p2 l2)

theorem searchStages_hit (w : World) (sp names : List String)
    (suff : Option (List String)) (fl : List String)
    (rest : List (List String × Option (List String) × List String)) (p f : String)
    (h : search_blas_lib w sp names suff = some (p, f)) :
    searchStages w sp ((names, suff, fl) :: rest) = some (p, f, fl) := by
  have hstep : searchStages w sp ((names, suff, fl) :: rest) =
      match search_blas_lib w sp names suff with
      | some (q, g) => some (q, g, fl)
      | none => searchStages w sp rest := rfl
  rw [hstep, h]

/-- C3 (amended): whenever some deduplicated candidate directory contains a
file from MKL's dynamic name list, the search reports exactly HAS_MKL and
returns an existing MKL dynamic match — the MKL dynamic pass is first.  (An
MKL file from the static name list can lose to another vendor's dynamic
file, which is what the counterexample exhibits.) -/
theorem c3_mkl_dynamic_priority (w : World) (a b : Bool) (p n : String)
    (hp : p ∈ deduplicate_paths w.candidate_paths)
    (hn : n ∈ mkl_file_names1 w.plat)
    (hex : w.ex (osJoin w.plat p n) = true) :
    ∃ r, find_blas w a b = .ok r ∧ r.flags = ["HAS_MKL"]
      ∧ r.blas_file ∈ mkl_file_names1 w.plat
      ∧ w.ex (osJoin w.plat r.blas_path r.blas_file) = true := by
  obtain ⟨p2, f2, hres, hf2, hp2, hx2⟩ :=
    firstHit_isSome w (deduplicate_paths w.candidate_paths) (mkl_file_names1 w.plat)
      p n hp hn hex
  have hv : vendorSearch w (deduplicate_paths w.candidate_paths)
      = some (p2, f2, ["HAS_MKL"]) := by
    unfold vendorSearch vendorStages
    exact searchStages_hit w _ _ none ["HAS_MKL"] _ p2 f2 hres
  refine ⟨finalize w p2 f2 ["HAS_MKL"], ?_, ?_, ?_, ?_⟩
  · show find_blas_core w a (deduplicate_paths w.candidate_paths) = _
    unfold find_blas_core
    simp only [hv]
  · exact finalize_flags_mkl w p2 f2 ["HAS_MKL"] (by decide)
  · rw [finalize_blas_file]; exact hf2
  · rw [finalize_blas_path, finalize_blas_file]; exact hx2

def w3 : World :=
  { trivWorld .linux with
      candidate_paths := ["/d"],
      ex := fun s => s == "/d/libopenblas.so" || s == "/d/libmkl_rt.a" }

def r3 : FindOk := ⟨"/d", "libopenblas.so", none, none, ["HAS_OPENBLAS", "HAS_UNDERSCORES"]⟩

/-- C3 counterexample: the filesystem holds a file from MKL's (static) name
list and a file from OpenBLAS's (dynamic) name list, yet the search returns
the OpenBLAS match without HAS_MKL — the dynamic pass of every vendor runs
before any static pass, so vendor priority alone does not decide. -/
theorem c3_counterexample :
    "libmkl_rt.a" ∈ mkl_file_names2 Platform.linux
    ∧ w3.ex (osJoin Platform.linux "/d" "libmkl_rt.a") = true
    ∧ "libopenblas.so" ∈ openblas_file_names1 Platform.linux
    ∧ w3.ex (osJoin Platform.linux "/d" "libopenblas.so") = true
    ∧ find_blas w3 true true = .ok r3
    ∧ "HAS_MKL" ∉ r3.flags
    ∧ "HAS_OPENBLAS" ∈ r3.flags := by
  refine ⟨by decide, rfl, by decide, rfl, ?_, by decide, by decide⟩
  rfl

/-- C3 witness: the amended theorem at a concrete world holding an MKL
dynamic library. -/
theorem c3_witness :
    ∃ r, find_blas w6 true true = .ok r ∧ r.flags = ["HAS_MKL"]
      ∧ r.blas_file ∈ mkl_file_names1 w6.plat
      ∧ w6.ex (osJoin w6.plat r.blas_path r.blas_file) = true :=
  c3_mkl_dynamic_priority w6 true true "/d" "libmkl_rt.so" (by decide) (by decide) rfl

/-- C1 (amended): in the generic-name pass, a file whose symbol table has
`cblas_ddot` but no vendor fingerprint and no underscore symbol is
classified with an empty flag list (found=True, flags=[]); however the
overall search result is not flagless: since no vendor identity flag was
determined, the header-resolution step appends UNKNWON_BLAS, so the final
flag set is exactly that one flag. -/
theorem c1_generic_cblas (w : World) (a b : Bool) (p f : String)
    (hplat : w.plat = Platform.linux)
    (hv : vendorSearch w (deduplicate_paths w.candidate_paths) = none)
    (hg : search_blas_lib w (deduplicate_paths w.candidate_paths)
        ((extList w.plat).map fun e => prefS w.plat ++ "cblas" ++ e) none = some (p, f))
    (hElf : (w.fi p f).elfOk = true)
    (h1 : "openblas_get_config" ∉ (w.fi p f).symtab)
    (h2 : "bli_axpyd" ∉ (w.fi p f).symtab)
    (h3 : "mkl_dcsrgemv" ∉ (w.fi p f).symtab)
    (h4 : "ddot_" ∉ (w.fi p f).symtab)
    (h5 : "cblas_ddot" ∈ (w.fi p f).symtab) :
    find_symbols (w.fi p f) = (true, some [])
    ∧ find_blas w a b = .ok (finalize w p f [])
    ∧ (finalize w p f []).flags = ["UNKNWON_BLAS"] := by
  have hfs : find_symbols (w.fi p f) = (true, some []) := by
    simp [find_symbols, hElf, h1, h2, h3, h4, h5]
  refine ⟨hfs, ?_, ?_⟩
  · show find_blas_core w a (deduplicate_paths w.candidate_paths) = _
    have hgf : genericFlags w p f = [] := by
      unfold genericFlags
      have hw : (w.plat != Platform.win) = true := by rw [hplat]; rfl
      rw [if_pos hw, hfs]
    have hgen : genericSearch w (deduplicate_paths w.candidate_paths)
        = some (p, f, []) := by
      unfold genericSearch
      simp only [hg]
      rw [hgf]
    unfold find_blas_core
    simp only [hv, hgen]
  · have hu : (finalize w p f []).flags = [] ++ ["UNKNWON_BLAS"] :=
      finalize_flags_unknown w p f []
        (by decide) (by decide) (by decide) (by decide) (by decide)
    simpa using hu

def w1 : World :=
  { trivWorld .linux with
      candidate_paths := ["/d"],
      ex := fun s => s == "/d/libcblas.so",
      fi := fun _ _ => ⟨true, ["cblas_ddot"], false, []⟩ }

def r1 : FindOk := ⟨"/d", "libcblas.so", none, none, ["UNKNWON_BLAS"]⟩

/-- C1 counterexample: a directory holding only `libcblas.so` whose symbol
table has `cblas_ddot` and no vendor fingerprint; the search result's flag
set is not empty — it contains UNKNWON_BLAS, appended because no vendor
identity flag was determined. -/
theorem c1_counterexample :
    w1.ex (osJoin Platform.linux "/d" "libcblas.so") = true
    ∧ "cblas_ddot" ∈ (w1.fi "/d" "libcblas.so").symtab
    ∧ "openblas_get_config" ∉ (w1.fi "/d" "libcblas.so").symtab
    ∧ "bli_axpyd" ∉ (w1.fi "/d" "libcblas.so").symtab
    ∧ "mkl_dcsrgemv" ∉ (w1.fi "/d" "libcblas.so").symtab
    ∧ find_blas w1 true true = .ok r1
    ∧ r1.flags ≠ []
    ∧ "UNKNWON_BLAS" ∈ r1.flags := by
  refine ⟨rfl, by decide, by decide, by decide, by decide, ?_, by decide, by decide⟩
  rfl

def w1w : World :=
  { trivWorld .linux with
      candidate_paths := ["/e"],
      ex := fun s => s == "/e/libcblas.so",
      fi := fun _ _ => ⟨true, ["cblas_ddot", "dgemm"], false, []⟩ }

/-- C1 witness: the amended theorem at a concrete world. -/
theorem c1_witness :
    find_symbols (w1w.fi "/e" "libcblas.so") = (true, some [])
    ∧ find_blas w1w true true = .ok (finalize w1w "/e" "libcblas.so" [])
    ∧ (finalize w1w "/e" "libcblas.so" []).flags = ["UNKNWON_BLAS"] :=
  c1_generic_cblas w1w true true "/e" "libcblas.so" rfl rfl rfl rfl
    (by decide) (by decide) (by decide) (by decide) (by decide)
